import Mathlib

/-!
Verification of the RustHTTP-API-Client repository.

This file shallowly embeds the pure logic of the repository
(`src/models.rs`, `src/utils.rs`, `src/client.rs`) in Lean 4 and proves the
specification's claims about it.  Rust machine integers are modelled as `Nat`
with explicit bounds where they matter (`u8` bytes are `Nat`s `< 256`),
strings are modelled at the byte / character level, and the external
collaborators (the `reqwest` transport and the `serde_json` parser) are
modelled as explicit function parameters so that "no network I/O happened"
is expressible as an empty trace of sent requests.  The `serde_json` parser
used by POST/PUT is the parameter `parseJson : String → Except String Json`,
failing with the parse-error message.
-/

namespace RustHttp

/-! ## Base64 encoder (`src/models.rs`, `base64_encode`)

The Rust source iterates over `input.as_bytes().chunks(3)`; we model the byte
sequence as a `List Nat` (each element a `u8`, i.e. `< 256`) and the chunking
as `chunks3`.  The source packs each chunk into
`n = buf[0] << 16 | buf[1] << 8 | buf[2]`; since the three fields occupy
disjoint bit ranges for bytes `< 256`, the bit-or equals the sum
`buf0 * 65536 + buf1 * 256 + buf2` used below, and `(n >> k) & 63` equals
`n / 2 ^ k % 64`. -/

/-- The fixed 64-character alphabet `b64_chars` from the source. -/
def b64Alphabet : List Char :=
  "ABCDEFGHIJKLMNOPQRSTUVWXYZabcdefghijklmnopqrstuvwxyz0123456789+/".toList

/-- `chars[i]` from the source; the index is always `< 64` at every use site
(it is produced by `% 64`), so the default is never returned. -/
def b64Char (i : Nat) : Char := b64Alphabet.getD i 'A'

/-- `bytes.chunks(3)`: groups of three, with a final group of 1 or 2 when the
length is not a multiple of three. -/
def chunks3 : List Nat → List (List Nat)
  | [] => []
  | [a] => [[a]]
  | [a, b] => [[a, b]]
  | a :: b :: c :: rest => [a, b, c] :: chunks3 rest

/-- The body of the `for chunk in bytes.chunks(3)` loop: zero-pad the chunk
into `buf`, pack it into a 24-bit integer and emit four symbols, replacing
the last one or two with `=` when the chunk is short. -/
def encodeChunk (chunk : List Nat) : List Char :=
  let buf0 := chunk.getD 0 0
  let buf1 := chunk.getD 1 0
  let buf2 := chunk.getD 2 0
  let n := buf0 * 65536 + buf1 * 256 + buf2
  [b64Char (n / 262144 % 64),
   b64Char (n / 4096 % 64),
   if chunk.length > 1 then b64Char (n / 64 % 64) else '=',
   if chunk.length > 2 then b64Char (n % 64) else '=']

/-- `base64_encode` from `src/models.rs`, at the byte level. -/
def base64_encode (bytes : List Nat) : List Char :=
  (chunks3 bytes).flatMap encodeChunk

/-! ### A standard RFC 4648 decoder (spec side)

Modelled from the spec: "decoding its output with a standard RFC 4648 base64
decoder (standard alphabet, `=` padding, no line wrapping)".  The repository
implements no decoder, so this definition follows RFC 4648: symbols are read
four at a time, `=` may appear only as final padding, non-alphabet symbols
are rejected, and the unused low bits under the padding must be zero
(canonical encoding check). -/

/-- Index of a symbol in the standard alphabet, `none` for non-symbols. -/
def symIndex (c : Char) : Option Nat :=
  b64Alphabet.findIdx? (fun x => x = c)

/-- Standard strict RFC 4648 decoder (spec side), for comparison with the
encoder from the source. -/
def base64_decode : List Char → Option (List Nat)
  | a :: b :: c :: d :: rest =>
    match symIndex a, symIndex b with
    | some va, some vb =>
      if c = '=' then
        if d = '=' then
          if rest = [] then
            if vb % 16 = 0 then some [va * 4 + vb / 16] else none
          else none
        else none
      else
        match symIndex c with
        | some vc =>
          if d = '=' then
            if rest = [] then
              if vc % 4 = 0 then
                some [va * 4 + vb / 16, vb % 16 * 16 + vc / 4]
              else none
            else none
          else
            match symIndex d, base64_decode rest with
            | some vd, some tail =>
              some ((va * 4 + vb / 16) :: (vb % 16 * 16 + vc / 4) ::
                    (vc % 4 * 64 + vd) :: tail)
            | _, _ => none
        | none => none
    | _, _ => none
  | [] => some []
  | [_] => none
  | [_, _] => none
  | [_, _, _] => none

/-- Number of trailing `=` characters of an encoder output. -/
def tailPadCount (l : List Char) : Nat :=
  (l.reverse.takeWhile (fun c => c = '=')).length

/-! ## JSON colorizer (`src/utils.rs`, `colorize_json`)

The Rust function wraps pieces of the input in terminal styling via the
`colored` crate (`.green()`, `.yellow().to_string()`, ...).  Following the
spec's design note ("abstract as a style tag enum applied to token spans;
rendering to actual ANSI codes ... is a separate, swappable concern"), the
embedding produces the list of emitted spans, each tagged with the style the
source applies or `plain` for the `result.push`/unstyled pushes.  Stripping
the styling is then concatenating the span contents. -/

/-- The distinct stylings applied by the source. -/
inductive Style
  | green | yellow | cyanBold | white | blue | magenta | red

/-- One span pushed onto `result`: either wrapped in a styling or plain. -/
inductive Tok
  | styled (st : Style) (s : List Char)
  | plain (s : List Char)

/-- The characters of a span, with the styling stripped. -/
def Tok.content : Tok → List Char
  | styled _ s => s
  | plain s => s

/-- All characters of an output, in order, with all styling stripped. -/
def tokensContent (ts : List Tok) : List Char :=
  (ts.map Tok.content).flatten

/-- Continuation test of the greedy numeric-token loop:
`next_ch.is_ascii_digit() || next_ch == '.' || next_ch == 'e' || ... '+' || '-'`. -/
def numCont (c : Char) : Bool :=
  c.isDigit || c == '.' || c == 'e' || c == 'E' || c == '+' || c == '-'

/-- `ch.is_ascii_digit() || ch == '.' || ch == '-'`, the entry guard of the
numeric branch. -/
def numStart (c : Char) : Bool :=
  c.isDigit || c == '.' || c == '-'

/-- `char::is_alphabetic`.  The Rust predicate is Unicode-wide; it is
approximated here by ASCII alphabeticity.  Only the styling choice depends on
this predicate — every branch of the scanner emits the character unchanged —
so the claims proved below do not depend on the approximation. -/
def isWordChar (c : Char) : Bool := c.isAlpha

/-- The scanner loop of `colorize_json`: one step per iteration of
`while let Some(ch) = chars.next()`, with the `in_string` and `escaped`
flags threaded through.  The match arms appear in source order. -/
def colorizeGo : Bool → Bool → List Char → List Tok
  | _, _, [] => []
  | in_string, escaped, ch :: rest =>
    if ch == '"' && !escaped then
      Tok.styled Style.green [ch] :: colorizeGo (!in_string) escaped rest
    else if ch == '\\' && in_string then
      Tok.styled Style.green [ch] :: colorizeGo in_string (!escaped) rest
    else if in_string then
      Tok.styled Style.green [ch] :: colorizeGo in_string false rest
    else if ch == ':' then
      Tok.styled Style.yellow [ch] :: colorizeGo in_string escaped rest
    else if ch == '{' || ch == '}' || ch == '[' || ch == ']' then
      Tok.styled Style.cyanBold [ch] :: colorizeGo in_string escaped rest
    else if ch == ',' then
      Tok.styled Style.white [ch] :: colorizeGo in_string escaped rest
    else if numStart ch then
      Tok.styled Style.blue (ch :: rest.takeWhile numCont) ::
        colorizeGo in_string escaped (rest.dropWhile numCont)
    else if isWordChar ch then
      (let wd := ch :: rest.takeWhile isWordChar
       if wd == "true".toList || wd == "false".toList then
         Tok.styled Style.magenta wd
       else if wd == "null".toList then Tok.styled Style.red wd
       else Tok.plain wd) ::
        colorizeGo in_string escaped (rest.dropWhile isWordChar)
    else
      Tok.plain [ch] :: colorizeGo in_string false rest
termination_by _ _ l => l.length
decreasing_by
  all_goals simp only [List.length_cons]
  all_goals first
    | exact Nat.lt_succ_self _
    | exact Nat.lt_succ_of_le (List.dropWhile_sublist _).length_le

/-- `colorize_json` from `src/utils.rs`, producing styled spans. -/
def colorize_json (json : List Char) : List Tok :=
  colorizeGo false false json

/-! ## Duration formatter (`src/utils.rs`, `format_duration`)

The source computes `ms as f64 / 1000.0` (or `/ 60000.0`) and prints it with
`{:.2}`.  Both the `u64`-to-`f64` conversion and the division round to the
nearest IEEE-754 binary64 value (ties to even), and Rust's precision-2
formatting renders the double's exact value rounded half-to-even to two
fractional digits.  All the doubles that occur are finite, non-negative and
normal, so they are modelled exactly as dyadic rationals over `Nat`. -/

/-- Round the rational `p / q` (with `q > 0`) to the nearest integer, ties to
even. -/
def rne (p q : Nat) : Nat :=
  let d := p / q
  let r := p % q
  if 2 * r < q then d
  else if q < 2 * r then d + 1
  else if d % 2 = 0 then d else d + 1

/-- Fuel-driven floor of the base-2 logarithm (structurally recursive so that
concrete instances reduce inside the kernel). -/
def log2Aux : Nat → Nat → Nat
  | 0, _ => 0
  | fuel + 1, n => if 2 ≤ n then log2Aux fuel (n / 2) + 1 else 0

/-- `floor (log2 n)` for `n ≥ 1` (junk value `0` at `0`): `n` halvings are
always enough fuel. -/
def log2fl (n : Nat) : Nat := log2Aux n n

/-- Exact value, as a `(numerator, denominator)` pair, of the IEEE-754
binary64 nearest to the rational `p / q`.  Every use below has `1 ≤ p / q`
(and far below overflow), so the significand grid is `2 ^ (e - 52)` for
`e = floor(log2 (p / q))` and neither subnormals nor infinities arise. -/
def roundF64 (p q : Nat) : Nat × Nat :=
  let e := log2fl (p / q)
  if e ≤ 52 then (rne (p * 2 ^ (52 - e)) q, 2 ^ (52 - e))
  else (rne p (q * 2 ^ (e - 52)) * 2 ^ (e - 52), 1)

/-- `ms as f64 / k as f64`: the integer is first rounded to a double, then
the division result is rounded to a double (`k` is one of the exactly
representable constants `1000.0` / `60000.0`). -/
def f64DivNat (ms k : Nat) : Nat × Nat :=
  let x := roundF64 ms 1
  roundF64 x.1 (x.2 * k)

/-- Rust's `{:.2}` formatting of the exact double value `v.1 / v.2`: round
half-to-even at two fractional digits and print with exactly two digits
after the point. -/
def fmtTwoDecimal (v : Nat × Nat) : String :=
  let h := rne (v.1 * 100) v.2
  toString (h / 100) ++ "." ++
    (if h % 100 < 10 then "0" ++ toString (h % 100) else toString (h % 100))

/-- `format_duration` from `src/utils.rs`. -/
def format_duration (ms : Nat) : String :=
  if ms < 1000 then toString ms ++ "ms"
  else if ms < 60000 then fmtTwoDecimal (f64DivNat ms 1000) ++ "s"
  else fmtTwoDecimal (f64DivNat ms 60000) ++ "m"

/-! ## Dotted-path JSON extractor (`src/utils.rs`, `json_path_extract`)

The Rust function first parses its string argument with `serde_json`
(an external crate) and then walks the parsed `Value`; the embedding models
the parsed document directly as `Json` and embeds the walk.  `serde_json`
objects have unique keys; they are modelled as association lists looked up
by first match. -/

/-- `serde_json::Value`, with numbers restricted to the integers that the
claims exercise. -/
inductive Json where
  | null
  | bool (b : Bool)
  | num (n : Int)
  | str (s : String)
  | arr (xs : List Json)
  | obj (fields : List (String × Json))

/-- `path.split('.')` at the character level: splitting is on single `.`
characters, and splitting the empty path yields one empty segment, exactly
as Rust's `str::split`. -/
def splitOnDot : List Char → List (List Char)
  | [] => [[]]
  | c :: rest =>
    if c = '.' then [] :: splitOnDot rest
    else
      match splitOnDot rest with
      | s :: ss => (c :: s) :: ss
      | [] => [[c]]

/-- `part.parse::<usize>()`: an optional leading `+`, then one or more ASCII
digits and nothing else, and the value must fit in `usize` (64-bit target),
otherwise the parse fails and the segment is treated as a key. -/
def parseUsize (cs : List Char) : Option Nat :=
  let ds := match cs with
    | '+' :: rest => rest
    | other => other
  if ds ≠ [] ∧ ds.all (fun c => c.isDigit) then
    let v := ds.foldl (fun acc c => acc * 10 + (c.toNat - 48)) 0
    if v < 2 ^ 64 then some v else none
  else none

/-- `Value::get` with a `usize` index: succeeds only on arrays. -/
def Json.getIdx : Json → Nat → Option Json
  | .arr xs, i => xs.get? i
  | _, _ => none

/-- `Value::get` with a string key: succeeds only on objects. -/
def Json.getKey : Json → String → Option Json
  | .obj fs, k => fs.lookup k
  | _, _ => none

/-- The spec's `PathNotFound` failure, naming the missing index or key
(the source attaches the context `Array index i not found` resp.
`Key k not found`). -/
inductive PathError where
  | indexNotFound (i : Nat)
  | keyNotFound (k : String)
deriving DecidableEq

/-- The `for part in parts` loop of `json_path_extract`. -/
def pathGo (cur : Json) : List (List Char) → Except PathError Json
  | [] => .ok cur
  | part :: rest =>
    if part = [] then pathGo cur rest
    else
      match parseUsize part with
      | some i =>
        match cur.getIdx i with
        | some nxt => pathGo nxt rest
        | none => .error (.indexNotFound i)
      | none =>
        match cur.getKey (String.mk part) with
        | some nxt => pathGo nxt rest
        | none => .error (.keyNotFound (String.mk part))

/-- `json_path_extract` from `src/utils.rs`, applied to the already-parsed
document: split the path on `.` and walk. -/
def json_path_extract (v : Json) (path : List Char) : Except PathError Json :=
  pathGo v (splitOnDot path)

/-- The document `a maps to (b maps to [10, 20, 30])` of testable property 5. -/
def sampleDoc : Json :=
  Json.obj [("a", Json.obj [("b", Json.arr [Json.num 10, Json.num 20, Json.num 30])])]

/-! ## HTTP client (`src/client.rs`)

The `reqwest` transport is modelled as a function parameter
`net : Request → Except String (TransportResponse × Nat)`: it receives the
built request and either fails (any DNS/TLS/connection/timeout failure,
carrying a description) or yields the completed transport response together
with the elapsed milliseconds `start_time.elapsed().as_millis() as u64`
observed for the exchange.  Each dispatcher also returns the list of
requests it handed to the transport, so "no network I/O occurred" is
"this list is empty".  `serde_json::from_str` as used by POST/PUT for
validation is a parameter `parseJson : String → Except String Json`,
whose error value is the parse-error message (the cause that the source
wraps under its `Invalid JSON data provided` context). -/

/-- `RequestConfig` from `src/models.rs` (the `HashMap` of headers as an
association list). -/
structure RequestConfig where
  headers : List (String × String)
  pretty_print : Bool
  follow_redirects : Bool
  verify_ssl : Bool

/-- `RequestConfig::new`. -/
def RequestConfig.new : RequestConfig :=
  { headers := [], pretty_print := false, follow_redirects := true,
    verify_ssl := true }

/-- `HttpMethod` from `src/models.rs`. -/
inductive HttpMethod where
  | Get | Post | Put | Delete | Patch | Head | Options
deriving DecidableEq

/-- A request as handed to the transport: verb-specific builder, the target
URL, every configured header attached, and the serialized JSON body for
POST/PUT. -/
structure Request where
  method : HttpMethod
  url : String
  headers : List (String × String)
  body : Option Json

/-- A completed transport response, as observed through the `reqwest`
response API: `status().as_u16()` (the `http` crate only constructs status
codes in `100 ..= 999`), `status().canonical_reason()`, the header map
(each value `some s` when `value.to_str()` succeeds, `none` when the raw
bytes are not valid visible text), and the `text()` body read, which can
fail.  Header names arrive normalized to lowercase. -/
structure TransportResponse where
  status : Nat
  canonicalReason : Option String
  headers : List (String × Option String)
  body : Except String String

/-- `ApiResponse` from `src/models.rs`. -/
structure ApiResponse where
  status : Nat
  status_text : String
  headers : List (String × String)
  body : String
  content_type : String
  response_time_ms : Nat

/-- The spec's error taxonomy for the dispatcher / normalizer.
`invalidPayload` carries the parse error underneath the source's
`Invalid JSON data provided` context; `transportFailure` carries the target
URL attached by the source's `Failed to send ... request to url` context. -/
inductive ClientError where
  | invalidPayload (cause : String)
  | transportFailure (url : String)
  | bodyReadFailure
deriving DecidableEq

/-- The transport collaborator. -/
abbrev Net := Request → Except String (TransportResponse × Nat)

/-- `HttpClient::process_response` from `src/client.rs`: status and phrase
(`canonical_reason().unwrap_or("Unknown")`), the headers whose values are
valid text, the content type
(`get("content-type").and_then(to_str).unwrap_or("text/plain")`), and the
body text, whose read failure is the only error of this function. -/
def process_response (resp : TransportResponse) (elapsedMs : Nat) :
    Except ClientError ApiResponse :=
  let status := resp.status
  let statusText := resp.canonicalReason.getD "Unknown"
  let headers := resp.headers.filterMap fun kv => kv.2.map fun v => (kv.1, v)
  let contentType := ((resp.headers.lookup "content-type").bind id).getD "text/plain"
  match resp.body with
  | .error _ => .error .bodyReadFailure
  | .ok body =>
    .ok { status := status, status_text := statusText, headers := headers,
          body := body, content_type := contentType,
          response_time_ms := elapsedMs }

/-- `HttpClient::get`. -/
def HttpClient.get (net : Net) (url : String) (config : RequestConfig) :
    Except ClientError ApiResponse × List Request :=
  let req : Request :=
    { method := .Get, url := url, headers := config.headers, body := none }
  match net req with
  | .error _ => (.error (.transportFailure url), [req])
  | .ok (resp, ms) => (process_response resp ms, [req])

/-- `HttpClient::post`: the body must parse as JSON before a request is even
built; on parse failure the call returns `InvalidPayload` having sent
nothing. -/
def HttpClient.post (parseJson : String → Except String Json) (net : Net)
    (url data : String) (config : RequestConfig) :
    Except ClientError ApiResponse × List Request :=
  match parseJson data with
  | .error cause => (.error (.invalidPayload cause), [])
  | .ok j =>
    let req : Request :=
      { method := .Post, url := url, headers := config.headers, body := some j }
    match net req with
    | .error _ => (.error (.transportFailure url), [req])
    | .ok (resp, ms) => (process_response resp ms, [req])

/-- `HttpClient::put`: same JSON validation as POST. -/
def HttpClient.put (parseJson : String → Except String Json) (net : Net)
    (url data : String) (config : RequestConfig) :
    Except ClientError ApiResponse × List Request :=
  match parseJson data with
  | .error cause => (.error (.invalidPayload cause), [])
  | .ok j =>
    let req : Request :=
      { method := .Put, url := url, headers := config.headers, body := some j }
    match net req with
    | .error _ => (.error (.transportFailure url), [req])
    | .ok (resp, ms) => (process_response resp ms, [req])

/-- `HttpClient::delete`. -/
def HttpClient.delete (net : Net) (url : String) (config : RequestConfig) :
    Except ClientError ApiResponse × List Request :=
  let req : Request :=
    { method := .Delete, url := url, headers := config.headers, body := none }
  match net req with
  | .error _ => (.error (.transportFailure url), [req])
  | .ok (resp, ms) => (process_response resp ms, [req])

/-- A concrete transport response whose body read succeeds, for witnesses. -/
def sampleOkResponse : TransportResponse :=
  { status := 200, canonicalReason := some "OK",
    headers := [("server", some "demo"), ("x-bin", none)],
    body := .ok "hello" }

/-- A concrete transport response whose body read fails, for witnesses. -/
def sampleBadBodyResponse : TransportResponse :=
  { status := 200, canonicalReason := some "OK",
    headers := [("server", some "demo")],
    body := .error "read timed out" }

theorem b64Char_ne_pad : ∀ v : Nat, v < 64 → b64Char v ≠ '=' := by decide

theorem symIndex_b64Char : ∀ v : Nat, v < 64 → symIndex (b64Char v) = some v := by
  decide

theorem encode_cons3 (a b c : Nat) (rest : List Nat) :
    base64_encode (a :: b :: c :: rest) =
      encodeChunk [a, b, c] ++ base64_encode rest := by
  simp [base64_encode, chunks3]

theorem decode_full_chunk (a b c : Nat) (ha : a < 256) (hb : b < 256)
    (hc : c < 256) (rest : List Char) :
    base64_decode (encodeChunk [a, b, c] ++ rest) =
      (base64_decode rest).map (fun t => a :: b :: c :: t) := by
  have h64 : ∀ m : Nat, m % 64 < 64 := fun m => Nat.mod_lt _ (by omega)
  simp only [encodeChunk, List.getD_cons_zero, List.getD_cons_succ,
    List.getD_nil, List.length_cons, List.length_nil]
  norm_num
  simp only [List.cons_append, List.nil_append, base64_decode,
    symIndex_b64Char _ (h64 _), b64Char_ne_pad _ (h64 _), if_false]
  cases hrest : base64_decode rest with
  | none => simp
  | some t =>
    simp only [Option.map_some', Option.some.injEq, List.cons.injEq,
      eq_self_iff_true, and_true]
    omega

theorem decode_single_chunk (a : Nat) (ha : a < 256) :
    base64_decode (encodeChunk [a]) = some [a] := by
  have h64 : ∀ m : Nat, m % 64 < 64 := fun m => Nat.mod_lt _ (by omega)
  simp only [encodeChunk, List.getD_cons_zero, List.getD_cons_succ,
    List.getD_nil, List.length_cons, List.length_nil]
  norm_num
  simp [base64_decode, symIndex_b64Char _ (h64 _)]
  omega

theorem decode_pair_chunk (a b : Nat) (ha : a < 256) (hb : b < 256) :
    base64_decode (encodeChunk [a, b]) = some [a, b] := by
  have h64 : ∀ m : Nat, m % 64 < 64 := fun m => Nat.mod_lt _ (by omega)
  simp only [encodeChunk, List.getD_cons_zero, List.getD_cons_succ,
    List.getD_nil, List.length_cons, List.length_nil]
  norm_num
  simp [base64_decode, symIndex_b64Char _ (h64 _), b64Char_ne_pad _ (h64 _)]
  omega

/-- Claim C1: decoding the output of `base64_encode` with a standard strict
RFC 4648 decoder (standard alphabet, `=` padding, no line wrapping) recovers
exactly the original byte sequence of the input. -/
theorem base64_encode_roundtrip (bs : List Nat) (h : ∀ x ∈ bs, x < 256) :
    base64_decode (base64_encode bs) = some bs := by
  induction bs using chunks3.induct with
  | case1 => rfl
  | case2 a =>
    have ha : a < 256 := h a (by simp)
    simpa [base64_encode, chunks3] using decode_single_chunk a ha
  | case3 a b =>
    have ha : a < 256 := h a (by simp)
    have hb : b < 256 := h b (by simp)
    simpa [base64_encode, chunks3] using decode_pair_chunk a b ha hb
  | case4 a b c rest ih =>
    have ha : a < 256 := h a (by simp)
    have hb : b < 256 := h b (by simp)
    have hc : c < 256 := h c (by simp)
    rw [encode_cons3, decode_full_chunk a b c ha hb hc]
    rw [ih (fun x hx => h x (by simp [hx]))]
    rfl

/-- Witness for C1 at the concrete input bytes of the string `hi`. -/
theorem base64_encode_roundtrip_witness :
    base64_decode (base64_encode [104, 105]) = some [104, 105] :=
  base64_encode_roundtrip [104, 105] (by decide)

theorem takeWhile_append_left (p : Char → Bool) (u v : List Char)
    (h : (u.takeWhile p).length < u.length) :
    (u ++ v).takeWhile p = u.takeWhile p := by
  induction u with
  | nil => simp at h
  | cons x u ih =>
    by_cases hx : p x
    · simp only [List.cons_append, List.takeWhile_cons, hx, if_true,
        List.length_cons] at h ⊢
      rw [ih (by omega)]
    · simp [List.takeWhile_cons, hx]

theorem tailPad_append (l1 l2 : List Char) (h : tailPadCount l2 < l2.length) :
    tailPadCount (l1 ++ l2) = tailPadCount l2 := by
  unfold tailPadCount at h ⊢
  rw [List.reverse_append,
    takeWhile_append_left _ _ _ (by simpa using h)]

theorem tailPad_two (x y : Char) (hy : ¬ y = '=') :
    tailPadCount [x, y, '=', '='] = 2 := by
  simp [tailPadCount, List.takeWhile, hy]

theorem tailPad_one (x y z : Char) (hz : ¬ z = '=') :
    tailPadCount [x, y, z, '='] = 1 := by
  simp [tailPadCount, List.takeWhile, hz]

theorem tailPad_zero (x y z w : Char) (hw : ¬ w = '=') :
    tailPadCount [x, y, z, w] = 0 := by
  simp [tailPadCount, List.takeWhile, hw]

/-- Claim C5: for every input of byte length `n`, the encoder's output length
is `4 * ceil(n / 3)` and the output ends in exactly `(3 - n % 3) % 3`
trailing `=` characters (so none when `n % 3 = 0`). -/
theorem base64_encode_length_and_padding (bs : List Nat) :
    (base64_encode bs).length = 4 * ((bs.length + 2) / 3) ∧
      tailPadCount (base64_encode bs) = (3 - bs.length % 3) % 3 := by
  have h64 : ∀ m : Nat, m % 64 < 64 := fun m => Nat.mod_lt _ (by omega)
  induction bs using chunks3.induct with
  | case1 => exact ⟨rfl, rfl⟩
  | case2 a =>
    constructor
    · simp [base64_encode, chunks3, encodeChunk]
    · have : base64_encode [a] =
          [b64Char ((a * 65536 + 0 * 256 + 0) / 262144 % 64),
           b64Char ((a * 65536 + 0 * 256 + 0) / 4096 % 64), '=', '='] := by
        simp [base64_encode, chunks3, encodeChunk]
      rw [this, tailPad_two _ _ (b64Char_ne_pad _ (h64 _))]
      simp
  | case3 a b =>
    constructor
    · simp [base64_encode, chunks3, encodeChunk]
    · have : base64_encode [a, b] =
          [b64Char ((a * 65536 + b * 256 + 0) / 262144 % 64),
           b64Char ((a * 65536 + b * 256 + 0) / 4096 % 64),
           b64Char ((a * 65536 + b * 256 + 0) / 64 % 64), '='] := by
        simp [base64_encode, chunks3, encodeChunk]
      rw [this, tailPad_one _ _ _ (b64Char_ne_pad _ (h64 _))]
      simp
  | case4 a b c rest ih =>
    have hlen4 : (encodeChunk [a, b, c]).length = 4 := by
      simp [encodeChunk]
    rw [encode_cons3]
    constructor
    · rw [List.length_append, hlen4, ih.1]
      simp only [List.length_cons]
      omega
    · rcases eq_or_ne rest [] with hrest | hrest
      · subst hrest
        have hnil : base64_encode [] = [] := rfl
        rw [hnil, List.append_nil]
        have : encodeChunk [a, b, c] =
            [b64Char ((a * 65536 + b * 256 + c) / 262144 % 64),
             b64Char ((a * 65536 + b * 256 + c) / 4096 % 64),
             b64Char ((a * 65536 + b * 256 + c) / 64 % 64),
             b64Char ((a * 65536 + b * 256 + c) % 64)] := by
          simp [encodeChunk]
        rw [this, tailPad_zero _ _ _ _ (b64Char_ne_pad _ (h64 _))]
        simp
      · have hpos : 1 ≤ rest.length := List.length_pos.mpr hrest
        have hlt : tailPadCount (base64_encode rest) <
            (base64_encode rest).length := by
          rw [ih.1, ih.2]
          omega
        rw [tailPad_append _ _ hlt, ih.2]
        simp only [List.length_cons]
        omega

theorem tokensContent_cons (t : Tok) (ts : List Tok) :
    tokensContent (t :: ts) = t.content ++ tokensContent ts := by
  simp [tokensContent]

/-- The scanner emits exactly the input characters, in order, whatever the
flag state. -/
theorem colorizeGo_content (ins esc : Bool) (l : List Char) :
    tokensContent (colorizeGo ins esc l) = l := by
  induction ins, esc, l using colorizeGo.induct <;>
    simp_all [colorizeGo, tokensContent, Tok.content,
      List.takeWhile_append_dropWhile] <;>
    (rw [if_neg (by rintro ⟨rfl, h2⟩; simp_all)];
     try split_ifs;
     all_goals simp_all [tokensContent, Tok.content,
       List.takeWhile_append_dropWhile];
     all_goals (rename_i rest0 h1 h2 h3 ih0 hW; simpa [hW.2] using List.takeWhile_append_dropWhile isWordChar rest0))

/-- Claim C2: `colorize_json` is a styling-only transform: it accepts every
input string (it is a total function), and stripping the styling from its
output yields exactly the input, character for character. -/
theorem colorize_json_content (s : List Char) :
    tokensContent (colorize_json s) = s :=
  colorizeGo_content false false s

/-- The walk ignores empty segments: extraction over the raw split equals
extraction over the split with all empty segments removed. -/
theorem pathGo_filter_empty (parts : List (List Char)) :
    ∀ v : Json, pathGo v parts = pathGo v (parts.filter (fun p => !p.isEmpty)) := by
  induction parts with
  | nil => intro v; rfl
  | cons part rest ih =>
    intro v
    match part with
    | [] => simpa [pathGo, List.filter_cons] using ih v
    | c :: cs =>
      simp only [pathGo, List.filter_cons, List.isEmpty_cons, Bool.not_false,
        if_true, List.cons_ne_nil, if_false, ite_false, reduceCtorEq]
      cases hpu : parseUsize (c :: cs) with
      | some i =>
        simp only [hpu]
        cases hg : Json.getIdx v i with
        | some nxt =>
          simp only [hg]
          exact ih nxt
        | none => simp [hg]
      | none =>
        simp only [hpu]
        cases hg : Json.getKey v (String.mk (c :: cs)) with
        | some nxt =>
          simp only [hg]
          exact ih nxt
        | none => simp [hg]

/-- Claim C8: `json_path_extract` splits the path on `.`, ignores empty
segments (third conjunct), and walks by array index / object key; on the
document `a maps to (b maps to [10, 20, 30])` the path `a.b.1` yields `20`
and the path `a.c` fails with `PathNotFound` naming the missing key `c`. -/
theorem json_path_extract_spec :
    json_path_extract sampleDoc "a.b.1".toList = Except.ok (Json.num 20) ∧
    json_path_extract sampleDoc "a.c".toList =
      Except.error (PathError.keyNotFound "c") ∧
    ∀ (v : Json) (path : List Char),
      json_path_extract v path =
        pathGo v ((splitOnDot path).filter (fun p => !p.isEmpty)) :=
  ⟨rfl, rfl, fun v path => pathGo_filter_empty (splitOnDot path) v⟩

/-- The two-fractional-digit rendering always produces a dot followed by
exactly two digits. -/
theorem twoDigit_len :
    ∀ r : Nat, r < 100 →
      (if r < 10 then "0" ++ toString r else toString r).length = 2 := by
  decide

theorem fmtTwoDecimal_shape (v : Nat × Nat) :
    ∃ ip fp : String, fmtTwoDecimal v = ip ++ "." ++ fp ∧ fp.length = 2 := by
  refine ⟨toString (rne (v.1 * 100) v.2 / 100),
    if rne (v.1 * 100) v.2 % 100 < 10 then
      "0" ++ toString (rne (v.1 * 100) v.2 % 100)
    else toString (rne (v.1 * 100) v.2 % 100), rfl, ?_⟩
  exact twoDigit_len _ (Nat.mod_lt _ (by omega))

/-- Claim C9: `format_duration` prints the raw integer with `ms` below one
second (with the four concrete values of testable property 3), and otherwise
the double quotient by 1000 / 60000 rendered with exactly two fractional
digits, suffixed `s` below one minute and `m` from one minute on. -/
theorem format_duration_spec :
    (∀ ms : Nat, ms < 1000 → format_duration ms = toString ms ++ "ms") ∧
    format_duration 0 = "0ms" ∧ format_duration 999 = "999ms" ∧
    format_duration 1000 = "1.00s" ∧ format_duration 60000 = "1.00m" ∧
    (∀ ms : Nat, 1000 ≤ ms → ms < 60000 → ∃ ip fp : String,
      format_duration ms = ip ++ "." ++ fp ++ "s" ∧ fp.length = 2) ∧
    (∀ ms : Nat, 60000 ≤ ms → ∃ ip fp : String,
      format_duration ms = ip ++ "." ++ fp ++ "m" ∧ fp.length = 2) := by
  refine ⟨?_, rfl, rfl, rfl, rfl, ?_, ?_⟩
  · intro ms h
    simp [format_duration, h]
  · intro ms h1 h2
    obtain ⟨ip, fp, heq, hlen⟩ := fmtTwoDecimal_shape (f64DivNat ms 1000)
    refine ⟨ip, fp, ?_, hlen⟩
    simp only [format_duration, if_neg (by omega : ¬ ms < 1000), if_pos h2]
    rw [heq]
  · intro ms h1
    obtain ⟨ip, fp, heq, hlen⟩ := fmtTwoDecimal_shape (f64DivNat ms 60000)
    refine ⟨ip, fp, ?_, hlen⟩
    simp only [format_duration, if_neg (by omega : ¬ ms < 1000),
      if_neg (by omega : ¬ ms < 60000)]
    rw [heq]

/-- Witness for C9 at the concrete inputs 500, 1500 and 61234. -/
theorem format_duration_spec_witness :
    format_duration 500 = "500ms" ∧
    (∃ ip fp : String,
      format_duration 1500 = ip ++ "." ++ fp ++ "s" ∧ fp.length = 2) ∧
    (∃ ip fp : String,
      format_duration 61234 = ip ++ "." ++ fp ++ "m" ∧ fp.length = 2) :=
  ⟨format_duration_spec.1 500 (by decide),
   format_duration_spec.2.2.2.2.2.1 1500 (by decide) (by decide),
   format_duration_spec.2.2.2.2.2.2 61234 (by decide)⟩

/-- Claim C3: for every URL, configuration and body that does not parse as
JSON, POST and PUT fail with `InvalidPayload` and the list of requests
handed to the transport is empty — the failure precedes any network I/O,
for every possible transport. -/
theorem post_put_invalid_payload (parseJson : String → Except String Json)
    (net : Net) (url data : String) (config : RequestConfig) (cause : String)
    (h : parseJson data = Except.error cause) :
    HttpClient.post parseJson net url data config =
        (Except.error (ClientError.invalidPayload cause), []) ∧
      HttpClient.put parseJson net url data config =
        (Except.error (ClientError.invalidPayload cause), []) := by
  constructor <;> simp [HttpClient.post, HttpClient.put, h]

/-- Witness for C3: a parser rejecting the body `not json`, a transport that
would answer, and the default configuration. -/
theorem post_put_invalid_payload_witness :
    HttpClient.post (fun _ => Except.error "expected value at line 1")
        (fun _ => Except.error "unreachable")
        "https://example.test" "not json" RequestConfig.new =
      (Except.error (ClientError.invalidPayload "expected value at line 1"),
        []) ∧
    HttpClient.put (fun _ => Except.error "expected value at line 1")
        (fun _ => Except.error "unreachable")
        "https://example.test" "not json" RequestConfig.new =
      (Except.error (ClientError.invalidPayload "expected value at line 1"),
        []) :=
  post_put_invalid_payload (fun _ => Except.error "expected value at line 1")
    (fun _ => Except.error "unreachable") "https://example.test" "not json"
    RequestConfig.new "expected value at line 1" rfl

/-- Claim C4: a normalized response always carries a valid three-digit
status (the transport's status-code type only admits 100 ..= 999, which the
normalizer copies unchanged) and a non-negative response time (`u64`,
modelled as `Nat`, hence `≥ 0`).  Immutability after creation holds
structurally: neither the source nor this embedding has any operation
mutating a constructed `ApiResponse`. -/
theorem process_response_invariant (resp : TransportResponse) (t : Nat)
    (hlo : 100 ≤ resp.status) (hhi : resp.status ≤ 999) (r : ApiResponse)
    (h : process_response resp t = Except.ok r) :
    100 ≤ r.status ∧ r.status ≤ 999 ∧ 0 ≤ r.response_time_ms := by
  cases hb : resp.body with
  | error e => simp [process_response, hb] at h
  | ok s =>
    simp only [process_response, hb, Except.ok.injEq] at h
    subst h
    exact ⟨hlo, hhi, Nat.zero_le _⟩

/-- Witness for C4 on a concrete 200 response. -/
theorem process_response_invariant_witness :
    ∃ r : ApiResponse, process_response sampleOkResponse 5 = Except.ok r ∧
      100 ≤ r.status ∧ r.status ≤ 999 ∧ 0 ≤ r.response_time_ms :=
  ⟨{ status := 200, status_text := "OK", headers := [("server", "demo")],
     body := "hello", content_type := "text/plain", response_time_ms := 5 },
   rfl,
   process_response_invariant sampleOkResponse 5 (by decide) (by decide) _ rfl⟩

/-- Claim C6: the normalizer's only failure mode is the body read — it fails
exactly when the body read fails, always with `BodyReadFailure` — and header
entries whose values are not valid text are silently omitted: the resulting
header map holds exactly the entries with readable values. -/
theorem process_response_failure_modes (resp : TransportResponse) (t : Nat) :
    (∀ e, process_response resp t = Except.error e →
      e = ClientError.bodyReadFailure ∧ ∃ msg, resp.body = Except.error msg) ∧
    (∀ msg, resp.body = Except.error msg →
      process_response resp t = Except.error ClientError.bodyReadFailure) ∧
    (∀ s, resp.body = Except.ok s → ∃ r : ApiResponse,
      process_response resp t = Except.ok r ∧
      ∀ k v, (k, v) ∈ r.headers ↔ (k, some v) ∈ resp.headers) := by
  refine ⟨?_, ?_, ?_⟩
  · intro e he
    cases hb : resp.body with
    | error msg =>
      simp only [process_response, hb, Except.error.injEq] at he
      exact ⟨he.symm, msg, rfl⟩
    | ok s => simp [process_response, hb] at he
  · intro msg hb
    simp [process_response, hb]
  · intro s hb
    refine ⟨{ status := resp.status,
              status_text := resp.canonicalReason.getD "Unknown",
              headers := resp.headers.filterMap fun kv =>
                kv.2.map fun v => (kv.1, v),
              body := s,
              content_type :=
                ((resp.headers.lookup "content-type").bind id).getD "text/plain",
              response_time_ms := t },
      by simp [process_response, hb], ?_⟩
    intro k v
    simp only [List.mem_filterMap]
    constructor
    · rintro ⟨⟨k1, ov⟩, hmem, hmap⟩
      cases ov with
      | none => simp at hmap
      | some w =>
        simp only [Option.map_some', Option.some.injEq, Prod.mk.injEq] at hmap
        obtain ⟨hk, hv⟩ := hmap
        subst hk
        subst hv
        exact hmem
    · intro hmem
      exact ⟨(k, some v), hmem, rfl⟩

/-- Witness for C6: a concrete failing body read and a concrete dropped
invalid header value. -/
theorem process_response_failure_modes_witness :
    process_response sampleBadBodyResponse 3 =
        Except.error ClientError.bodyReadFailure ∧
    ∃ r : ApiResponse, process_response sampleOkResponse 3 = Except.ok r ∧
      ∀ k v, (k, v) ∈ r.headers ↔ (k, some v) ∈ sampleOkResponse.headers :=
  ⟨(process_response_failure_modes sampleBadBodyResponse 3).2.1
      "read timed out" rfl,
   (process_response_failure_modes sampleOkResponse 3).2.2 "hello" rfl⟩

/-- Claim C7: when the transport response has no content-type header, the
normalized value's content type is `text/plain`. -/
theorem process_response_content_type_default (resp : TransportResponse)
    (t : Nat) (habs : resp.headers.lookup "content-type" = none)
    (r : ApiResponse) (h : process_response resp t = Except.ok r) :
    r.content_type = "text/plain" := by
  cases hb : resp.body with
  | error e => simp [process_response, hb] at h
  | ok s =>
    simp only [process_response, hb, Except.ok.injEq] at h
    subst h
    simp [habs]

/-- Witness for C7 on a concrete response without a content-type header. -/
theorem process_response_content_type_default_witness :
    ∃ r : ApiResponse, process_response sampleOkResponse 7 = Except.ok r ∧
      r.content_type = "text/plain" :=
  ⟨{ status := 200, status_text := "OK", headers := [("server", "demo")],
     body := "hello", content_type := "text/plain", response_time_ms := 7 },
   rfl,
   process_response_content_type_default sampleOkResponse 7 rfl _ rfl⟩

/-- Claim C10: the dispatcher reads only the `headers` field of the
configuration — two configurations with equal headers but arbitrary
`pretty_print` / `follow_redirects` / `verify_ssl` flags produce identical
requests and identical outcomes for GET, POST, PUT and DELETE. -/
theorem dispatch_ignores_flags (parseJson : String → Except String Json)
    (net : Net)
    (url data : String) (c1 c2 : RequestConfig)
    (h : c1.headers = c2.headers) :
    HttpClient.get net url c1 = HttpClient.get net url c2 ∧
    HttpClient.post parseJson net url data c1 =
      HttpClient.post parseJson net url data c2 ∧
    HttpClient.put parseJson net url data c1 =
      HttpClient.put parseJson net url data c2 ∧
    HttpClient.delete net url c1 = HttpClient.delete net url c2 := by
  refine ⟨?_, ?_, ?_, ?_⟩ <;>
    simp only [HttpClient.get, HttpClient.post, HttpClient.put,
      HttpClient.delete, h]

/-- Witness for C10: the default configuration against one with every flag
flipped. -/
theorem dispatch_ignores_flags_witness :
    HttpClient.get (fun _ => Except.error "down") "https://example.test"
        RequestConfig.new =
      HttpClient.get (fun _ => Except.error "down") "https://example.test"
        { headers := [], pretty_print := true, follow_redirects := false,
          verify_ssl := false } :=
  (dispatch_ignores_flags (fun _ => Except.ok Json.null)
    (fun _ => Except.error "down") "https://example.test" "d"
    RequestConfig.new
    { headers := [], pretty_print := true, follow_redirects := false,
      verify_ssl := false } rfl).1

end RustHttp
